import Mathlib

/-!
Shallow embedding of the `gcplog` Go package (src/gcplog.go) and proofs of
the specification claims about it.

Modelling conventions:
* Go strings are Lean `String`s (lists of unicode scalar values).
* `strings.ToUpper` is modelled by `goToUpper`, mapping `goToUpperChar`
  (the ASCII-letter fragment of `unicode.ToUpper`) over the characters.
* `strings.TrimSpace` is modelled by `trimSpace`, using `goIsSpace`
  (`unicode.IsSpace`: ASCII whitespace, NEL, NBSP and the Unicode
  space separators).
* `fmt.Sprint` / `fmt.Sprintf` arguments of type `any` are modelled by
  `GoVal` (strings and the ints used by this package's callers); `sprint`
  implements Sprint's rule of inserting a space only between two operands
  when neither is a string, and `sprintf` runs `doPrintf`, a state-machine
  rendering of `fmt`'s `doPrintf` loop over the format characters: the
  verbs `%v`, `%s`, `%d`, the literal `%%`, explicit argument indexes
  `%[n]` (which redirect the verb, renumber the following verbs, mark the
  call reordered — suppressing the EXTRA trailer — and report BADINDEX
  when malformed or out of range), and Go's MISSING/EXTRA/NOVERB and
  bad-verb error texts. Flags, width and precision are outside the
  modelled fragment, and an index bracket that is never closed consumes
  the rest of the format and reports NOVERB, where Go re-reads the
  bracket's content as width and verb.
* `encoding/json.Marshal` at the concrete struct type `gcpLogMessage`
  (two tagged string fields, declaration order `severity`, `message`) is
  modelled by `jsonMarshalGcpLogMessage`, with Go's default string
  escaping (quote, backslash, control characters, the HTML characters
  and U+2028/U+2029).
* Methods that write to standard output and possibly call `os.Exit`
  return an `Emission`: the bytes written plus an optional exit code.
-/

namespace Gcplog

/-! ### Go runtime fragments used by the package -/

/-- The ASCII-letter fragment of Go's `unicode.ToUpper`. -/
def goToUpperChar (c : Char) : Char :=
  if 97 ≤ c.toNat ∧ c.toNat ≤ 122 then Char.ofNat (c.toNat - 32) else c

/-- Go's `strings.ToUpper`: map `unicode.ToUpper` over the runes. -/
def goToUpper (s : String) : String :=
  ⟨s.data.map goToUpperChar⟩

/-- Go's `unicode.IsSpace`: `\t`, `\n`, `\v`, `\f`, `\r`, space, NEL,
NBSP, and the Unicode space separators. -/
def goIsSpace (c : Char) : Bool :=
  c = '\t' || c = '\n' || c.toNat = 11 || c.toNat = 12 || c = '\r' || c = ' ' ||
  c.toNat = 133 || c.toNat = 160 || c.toNat = 5760 ||
  (8192 ≤ c.toNat && c.toNat ≤ 8202) ||
  c.toNat = 8232 || c.toNat = 8233 || c.toNat = 8239 || c.toNat = 8287 ||
  c.toNat = 12288

/-- Go's `strings.TrimSpace`: drop leading and trailing whitespace. -/
def trimSpace (s : String) : String :=
  ⟨((s.data.dropWhile goIsSpace).reverse.dropWhile goIsSpace).reverse⟩

/-- A Go `any` value as passed to the `fmt` functions by this package's
entry points: a string or an int. -/
inductive GoVal where
  | str : String → GoVal
  | int : Int → GoVal
deriving DecidableEq

/-- How `fmt` renders a value with the default (`%v`) formatting. -/
def GoVal.render : GoVal → String
  | .str s => s
  | .int n => toString n

/-- Whether the operand is a string (controls `fmt.Sprint` spacing). -/
def GoVal.isStr : GoVal → Bool
  | .str _ => true
  | .int _ => false

/-- The Go type name of the value, as printed in `fmt` error texts. -/
def GoVal.typeName : GoVal → String
  | .str _ => "string"
  | .int _ => "int"

/-- Go's `fmt.Sprint`: concatenate operands, adding a space between two
consecutive operands only when neither is a string. -/
def sprint : List GoVal → String
  | [] => ""
  | [a] => a.render
  | a :: b :: rest =>
      a.render ++ (if a.isStr || b.isStr then "" else " ") ++ sprint (b :: rest)

/-- Rendering of one `fmt` verb applied to one argument, with Go's
wrong-type and bad-verb error texts. -/
def renderVerb (c : Char) (a : GoVal) : String :=
  if c = 'v' then a.render
  else if c = 's' then
    match a with
    | .str s => s
    | .int n => "%!s(int=" ++ toString n ++ ")"
  else if c = 'd' then
    match a with
    | .int n => toString n
    | .str s => "%!d(string=" ++ s ++ ")"
  else "%!" ++ String.singleton c ++ "(" ++ a.typeName ++ "=" ++ a.render ++ ")"

/-- The `type=value` list inside Go's `%!(EXTRA ...)` error text. -/
def extraArgs : List GoVal → String
  | [] => ""
  | [a] => a.typeName ++ "=" ++ a.render
  | a :: rest => a.typeName ++ "=" ++ a.render ++ ", " ++ extraArgs rest

/-- The parsing position inside one directive of `fmt`'s `doPrintf` loop:
outside any directive; just after a `%`; inside an explicit argument index
bracket (the accumulated value, whether a digit was seen, and whether a
non-digit corrupted the bracket — `parsenum` demands the bracket hold only
digits and at least one); or just after the closing bracket, holding the
parsed one-based index when the bracket was well formed. -/
inductive FmtState where
  | plain : FmtState
  | afterPct : FmtState
  | inIndex : Nat → Bool → Bool → FmtState
  | afterIdx : Option Nat → FmtState

/-- The `%!(EXTRA type=value, ...)` trailer `doPrintf` appends when
arguments remain unused, suppressed when an explicit argument index made
the call access the arguments out of order. -/
def extraTrailer (args : List GoVal) (argNum : Nat) (reordered : Bool) : String :=
  if reordered = false ∧ argNum < args.length then
    "%!(EXTRA " ++ extraArgs (args.drop argNum) ++ ")"
  else ""

/-- `fmt`'s `doPrintf` loop over the format characters, on the fragment
this package's callers exercise: literal text, `%%`, the verbs handled by
`renderVerb`, and explicit argument indexes `%[n]`. A well-formed in-range
index redirects the verb to that argument and renumbers the following
verbs from it; a malformed or out-of-range index leaves the numbering
unchanged and the verb reports `%!verb(BADINDEX)`; a `%` or exhausted
format mid-directive reports `%!(NOVERB)`; a verb with no argument left
reports `%!verb(MISSING)`. -/
def doPrintf (args : List GoVal) : List Char → FmtState → Nat → Bool → String
  | [], .plain, argNum, reordered => extraTrailer args argNum reordered
  | [], _, argNum, reordered => "%!(NOVERB)" ++ extraTrailer args argNum reordered
  | c :: rest, .plain, argNum, reordered =>
      if c = '%' then doPrintf args rest .afterPct argNum reordered
      else String.singleton c ++ doPrintf args rest .plain argNum reordered
  | c :: rest, .afterPct, argNum, reordered =>
      if c = '%' then "%" ++ doPrintf args rest .plain argNum reordered
      else if c = '[' then doPrintf args rest (.inIndex 0 false false) argNum true
      else if argNum < args.length then
        renderVerb c (args.getD argNum (GoVal.str "")) ++
          doPrintf args rest .plain (argNum + 1) reordered
      else
        "%!" ++ String.singleton c ++ "(MISSING)" ++
          doPrintf args rest .plain argNum reordered
  | c :: rest, .inIndex n seen bad, argNum, reordered =>
      if c = ']' then
        doPrintf args rest (.afterIdx (if seen && !bad then some n else none))
          argNum reordered
      else if c.isDigit then
        doPrintf args rest (.inIndex (10 * n + (c.toNat - 48)) true bad)
          argNum reordered
      else doPrintf args rest (.inIndex n seen true) argNum reordered
  | c :: rest, .afterIdx idx, argNum, reordered =>
      if c = '%' then
        "%" ++ doPrintf args rest .plain
          (match idx with
            | some m => if 1 ≤ m ∧ m ≤ args.length then m - 1 else argNum
            | none => argNum) reordered
      else
        match idx with
        | some m =>
            if 1 ≤ m ∧ m ≤ args.length then
              renderVerb c (args.getD (m - 1) (GoVal.str "")) ++
                doPrintf args rest .plain m reordered
            else
              "%!" ++ String.singleton c ++ "(BADINDEX)" ++
                doPrintf args rest .plain argNum reordered
        | none =>
            "%!" ++ String.singleton c ++ "(BADINDEX)" ++
              doPrintf args rest .plain argNum reordered

/-- Go's `fmt.Sprintf` on the modelled fragment. -/
def sprintf (format : String) (args : List GoVal) : String :=
  doPrintf args format.data .plain 0 false

/-- One character under Go's `encoding/json` string encoder (default
HTML escaping on). -/
def jsonEscapeChar (c : Char) : String :=
  if c = '"' then "\\\""
  else if c = '\\' then "\\\\"
  else if c = '\n' then "\\n"
  else if c = '\r' then "\\r"
  else if c = '\t' then "\\t"
  else if c = '<' then "\\u003c"
  else if c = '>' then "\\u003e"
  else if c = '&' then "\\u0026"
  else if c.toNat < 32 then
    "\\u00" ++ String.singleton (Char.ofNat (if c.toNat / 16 < 10 then 48 + c.toNat / 16 else 87 + c.toNat / 16))
      ++ String.singleton (Char.ofNat (if c.toNat % 16 < 10 then 48 + c.toNat % 16 else 87 + c.toNat % 16))
  else if c.toNat = 8232 then "\\u2028"
  else if c.toNat = 8233 then "\\u2029"
  else String.singleton c

/-- A JSON string literal: quotes around the escaped characters. -/
def jsonQuote (s : String) : String :=
  "\"" ++ String.join (s.data.map jsonEscapeChar) ++ "\""

/-! ### The gcplog package itself (src/gcplog.go) -/

def DEFAULT : String := "DEFAULT"
def INFO : String := "INFO"
def NOTICE : String := "NOTICE"
def WARN : String := "WARNING"
def WARNING : String := "WARNING"
def ERR : String := "ERROR"
def ERROR : String := "ERROR"
def CRIT : String := "CRITICAL"
def CRITICAL : String := "CRITICAL"
def ALERT : String := "ALERT"
def EMERGENCY : String := "EMERGENCY"
def DEBUG : String := "DEBUG"

/-- `severityAll`: all valid severity levels. -/
def severityAll : List String :=
  [DEFAULT, INFO, NOTICE, WARNING, ERROR, CRITICAL, ALERT, EMERGENCY, DEBUG]

/-- `gcpLogMessage`: part of the standard GCP logging structure. -/
structure gcpLogMessage where
  Severity : String
  Message : String
deriving DecidableEq

/-- `json.Marshal` at type `gcpLogMessage`: a compact object with the
tagged fields in declaration order. -/
def jsonMarshalGcpLogMessage (m : gcpLogMessage) : String :=
  "\x7b" ++ jsonQuote "severity" ++ ":" ++ jsonQuote m.Severity ++ "," ++
    jsonQuote "message" ++ ":" ++ jsonQuote m.Message ++ "\x7d"

/-- `Logger`: the main logging object. -/
structure Logger where
  severity : String
deriving DecidableEq

/-- `isValidSeverity` checks if the string is a valid severity level. -/
def isValidSeverity (s : String) : Bool :=
  severityAll.any (fun sev => goToUpper s == sev)

/-- `defaultLogger` returns a Logger with all elements set to defaults. -/
def defaultLogger : Logger :=
  ⟨DEFAULT⟩

/-- `New` returns a new Logger (variadic argument modelled as a list). -/
def New : List String → Logger
  | s₀ :: _ => if isValidSeverity s₀ then ⟨s₀⟩ else defaultLogger
  | [] => defaultLogger

/-- What one logging call does: the bytes written to standard output and
the exit code passed to `os.Exit`, if any. -/
structure Emission where
  out : String
  exitCode : Option Nat
deriving DecidableEq

/-- `output` writes the resulting log message (the written bytes). -/
def Logger.output (l : Logger) (s : String) : String :=
  jsonMarshalGcpLogMessage ⟨l.severity, trimSpace s⟩

/-- `prefix` (renamed: reserved word in Lean): the argument slice with
the logger's severity and `": "` prepended. -/
def Logger.prefixArgs (l : Logger) (v : List GoVal) : List GoVal :=
  GoVal.str l.severity :: GoVal.str ": " :: v

/-- `Print`. -/
def Logger.Print (l : Logger) (v : List GoVal) : Emission :=
  ⟨l.output (sprint v), none⟩

/-- `Printf`. -/
def Logger.Printf (l : Logger) (format : String) (v : List GoVal) : Emission :=
  ⟨l.output (sprintf format v), none⟩

/-- `Fatal`: same output as `Print`, then `os.Exit(1)`. -/
def Logger.Fatal (l : Logger) (v : List GoVal) : Emission :=
  ⟨l.output (sprint v), some 1⟩

/-- `Fatalf`: same output as `Printf`, then `os.Exit(1)`. -/
def Logger.Fatalf (l : Logger) (format : String) (v : List GoVal) : Emission :=
  ⟨l.output (sprintf format v), some 1⟩

/-- `PrefixPrint`. -/
def Logger.PrefixPrint (l : Logger) (v : List GoVal) : Emission :=
  ⟨l.output (sprint (l.prefixArgs v)), none⟩

/-- `PrefixPrintf`. -/
def Logger.PrefixPrintf (l : Logger) (format : String) (v : List GoVal) : Emission :=
  ⟨l.output (sprintf ("%s%s" ++ format) (l.prefixArgs v)), none⟩

/-- `PrefixFatal`: same output as `PrefixPrint`, then `os.Exit(1)`. -/
def Logger.PrefixFatal (l : Logger) (v : List GoVal) : Emission :=
  ⟨l.output (sprint (l.prefixArgs v)), some 1⟩

/-- `PrefixFatalf`: same output as `PrefixPrintf`, then `os.Exit(1)`. -/
def Logger.PrefixFatalf (l : Logger) (format : String) (v : List GoVal) : Emission :=
  ⟨l.output (sprintf ("%s%s" ++ format) (l.prefixArgs v)), some 1⟩

/-- `Severity` returns the current severity of the Logger. -/
def Logger.Severity (l : Logger) : String :=
  l.severity

/-- `SetSeverity` sets the severity if the provided string is valid. -/
def Logger.SetSeverity (l : Logger) (s : String) : Logger :=
  if isValidSeverity (goToUpper s) then ⟨goToUpper s⟩ else l

/-! ### Spec-side definitions -/

/-- The nine canonical severity tokens as the spec lists them. -/
def canonicalSeverities : List String :=
  ["DEFAULT", "INFO", "NOTICE", "WARNING", "ERROR", "CRITICAL", "ALERT",
   "EMERGENCY", "DEBUG"]

/-- A logger reached through the public interface: a `New` call followed
by a sequence of `SetSeverity` calls. -/
def reachableLogger (args : List String) (sets : List String) : Logger :=
  sets.foldl Logger.SetSeverity (New args)

/-! ### Helper lemmas -/

theorem strExt {a b : String} (h : a.data = b.data) : a = b := by
  cases a; cases b; exact congrArg String.mk h

theorem toNat_ofNat_of_lt {n : Nat} (h : n < 55296) : (Char.ofNat n).toNat = n := by
  simp only [Char.ofNat]
  rw [dif_pos (Or.inl h)]
  rfl

theorem goToUpperChar_of_lower {c : Char} (h : 97 ≤ c.toNat ∧ c.toNat ≤ 122) :
    goToUpperChar c = Char.ofNat (c.toNat - 32) := by
  simp only [goToUpperChar]
  rw [if_pos h]

theorem goToUpperChar_of_not {c : Char} (h : ¬(97 ≤ c.toNat ∧ c.toNat ≤ 122)) :
    goToUpperChar c = c := by
  simp only [goToUpperChar]
  rw [if_neg h]

theorem goToUpperChar_idem (c : Char) :
    goToUpperChar (goToUpperChar c) = goToUpperChar c := by
  by_cases h : 97 ≤ c.toNat ∧ c.toNat ≤ 122
  · rw [goToUpperChar_of_lower h]
    have hm : (Char.ofNat (c.toNat - 32)).toNat = c.toNat - 32 :=
      toNat_ofNat_of_lt (by omega)
    apply goToUpperChar_of_not
    rw [hm]
    omega
  · rw [goToUpperChar_of_not h, goToUpperChar_of_not h]

theorem goToUpper_idem (s : String) : goToUpper (goToUpper s) = goToUpper s := by
  apply strExt
  simp only [goToUpper, List.map_map]
  induction s.data with
  | nil => rfl
  | cons c t ih => simp [Function.comp, goToUpperChar_idem, ih]

theorem isValidSeverity_iff (s : String) :
    isValidSeverity s = true ↔ goToUpper s ∈ canonicalSeverities := by
  simp only [isValidSeverity, severityAll, canonicalSeverities, DEFAULT, INFO,
    NOTICE, WARNING, ERROR, CRITICAL, ALERT, EMERGENCY, DEBUG,
    List.any_eq_true, beq_iff_eq, List.mem_cons, List.not_mem_nil]
  constructor
  · rintro ⟨x, hx, rfl⟩
    simpa using hx
  · intro hx
    exact ⟨goToUpper s, by simpa using hx, rfl⟩

theorem setSeverity_eq (l : Logger) (s : String) :
    (l.SetSeverity s).severity =
      if goToUpper s ∈ canonicalSeverities then goToUpper s else l.severity := by
  by_cases hv : goToUpper s ∈ canonicalSeverities
  · have h : isValidSeverity (goToUpper s) = true := by
      rw [isValidSeverity_iff, goToUpper_idem]
      exact hv
    simp [Logger.SetSeverity, h, hv]
  · have h : ¬ isValidSeverity (goToUpper s) = true := by
      rw [isValidSeverity_iff, goToUpper_idem]
      exact hv
    simp [Logger.SetSeverity, h, hv]

theorem new_severity_eq (s : String) (rest : List String) :
    (New (s :: rest)).severity =
      if goToUpper s ∈ canonicalSeverities then s else "DEFAULT" := by
  by_cases hv : goToUpper s ∈ canonicalSeverities
  · have h : isValidSeverity s = true := (isValidSeverity_iff s).mpr hv
    simp [New, h, hv]
  · have h : ¬ isValidSeverity s = true := fun hh => hv ((isValidSeverity_iff s).mp hh)
    simp [New, h, hv, defaultLogger, DEFAULT]

theorem reachable_canonical_upper (args sets : List String) :
    goToUpper (reachableLogger args sets).severity ∈ canonicalSeverities := by
  have base : ∀ a : List String, goToUpper (New a).severity ∈ canonicalSeverities := by
    intro a
    match a with
    | [] => decide
    | s :: rest =>
        rw [new_severity_eq]
        by_cases hv : goToUpper s ∈ canonicalSeverities
        · rwa [if_pos hv]
        · rw [if_neg hv]; decide
  have step : ∀ (l : Logger) (s : String),
      goToUpper l.severity ∈ canonicalSeverities →
      goToUpper (l.SetSeverity s).severity ∈ canonicalSeverities := by
    intro l s hl
    rw [setSeverity_eq]
    by_cases hv : goToUpper s ∈ canonicalSeverities
    · rw [if_pos hv, goToUpper_idem]; exact hv
    · rwa [if_neg hv]
  have fold : ∀ (ss : List String) (l : Logger),
      goToUpper l.severity ∈ canonicalSeverities →
      goToUpper (ss.foldl Logger.SetSeverity l).severity ∈ canonicalSeverities := by
    intro ss
    induction ss with
    | nil => intro l hl; simpa using hl
    | cons s t ih =>
        intro l hl
        rw [List.foldl_cons]
        exact ih _ (step l s hl)
  exact fold sets (New args) (base args)

theorem sprint_str_cons (b : String) (v : List GoVal) :
    sprint (GoVal.str b :: v) = b ++ sprint v := by
  cases v with
  | nil => simp [sprint, GoVal.render]
  | cons c w => simp [sprint, GoVal.isStr, GoVal.render]

theorem sprint_prefixArgs (l : Logger) (v : List GoVal) :
    sprint (l.prefixArgs v) = l.severity ++ (": " ++ sprint v) := by
  rw [Logger.prefixArgs, sprint_str_cons, sprint_str_cons]

theorem extraTrailer_shift (pre v : List GoVal) (k : Nat) :
    extraTrailer (pre ++ v) (pre.length + k) false = extraTrailer v k false := by
  unfold extraTrailer
  by_cases h : k < v.length
  · rw [if_pos ⟨rfl, by simp only [List.length_append]; omega⟩, if_pos ⟨rfl, h⟩,
      List.drop_append]
  · rw [if_neg, if_neg]
    · exact fun hh => h hh.2
    · intro hh
      apply h
      have := hh.2
      simp only [List.length_append] at this
      omega

theorem doPrintf_shift (pre v : List GoVal) :
    ∀ f : List Char, '[' ∉ f → ∀ k : Nat,
      doPrintf (pre ++ v) f .plain (pre.length + k) false =
          doPrintf v f .plain k false
      ∧ doPrintf (pre ++ v) f .afterPct (pre.length + k) false =
          doPrintf v f .afterPct k false := by
  intro f
  induction f with
  | nil =>
      intro _ k
      refine ⟨extraTrailer_shift pre v k, ?_⟩
      show "%!(NOVERB)" ++ extraTrailer (pre ++ v) (pre.length + k) false =
          "%!(NOVERB)" ++ extraTrailer v k false
      rw [extraTrailer_shift pre v k]
  | cons c rest ih =>
      intro h k
      have hc : c ≠ '[' := fun e => h (by rw [e]; exact List.mem_cons_self _ _)
      have h' : '[' ∉ rest := fun hm => h (List.mem_cons_of_mem _ hm)
      constructor
      · simp only [doPrintf]
        by_cases e : c = '%'
        · rw [if_pos e, if_pos e]
          exact (ih h' k).2
        · rw [if_neg e, if_neg e, (ih h' k).1]
      · simp only [doPrintf]
        by_cases e : c = '%'
        · rw [if_pos e, if_pos e, (ih h' k).1]
        · rw [if_neg e, if_neg e, if_neg hc, if_neg hc]
          by_cases hlen : k < v.length
          · have h1 : pre.length + k < (pre ++ v).length := by
              simp only [List.length_append]
              omega
            rw [if_pos h1, if_pos hlen]
            have hg : (pre ++ v).getD (pre.length + k) (GoVal.str "") =
                v.getD k (GoVal.str "") := by
              rw [List.getD_append_right _ _ _ _ (Nat.le_add_right _ _)]
              simp
            have h2 : pre.length + k + 1 = pre.length + (k + 1) := by omega
            rw [hg, h2, (ih h' (k + 1)).1]
          · have h1 : ¬ pre.length + k < (pre ++ v).length := by
              simp only [List.length_append]
              omega
            rw [if_neg h1, if_neg hlen, (ih h' k).1]

theorem sprintf_ss (f : String) (a b : String) (v : List GoVal)
    (hf : '[' ∉ f.data) :
    sprintf ("%s%s" ++ f) (GoVal.str a :: GoVal.str b :: v) =
      a ++ (b ++ sprintf f v) := by
  have hd : ("%s%s" ++ f).data = '%' :: 's' :: '%' :: 's' :: f.data := rfl
  rw [sprintf, hd, sprintf]
  have step : doPrintf (GoVal.str a :: GoVal.str b :: v)
      ('%' :: 's' :: '%' :: 's' :: f.data) .plain 0 false =
      a ++ (b ++ doPrintf (GoVal.str a :: GoVal.str b :: v) f.data .plain 2 false) := by
    simp [doPrintf, renderVerb, List.getD]
  rw [step]
  have shift := (doPrintf_shift [GoVal.str a, GoVal.str b] v f.data hf 0).1
  simp only [List.cons_append, List.nil_append, List.length_cons,
    List.length_nil] at shift
  rw [show (0 + 1 + 1 : Nat) + 0 = 2 by omega] at shift
  rw [shift]

theorem jsonMarshal_eq (sev msg : String) :
    jsonMarshalGcpLogMessage ⟨sev, msg⟩ =
      "\x7b\"severity\":" ++ jsonQuote sev ++ ",\"message\":" ++ jsonQuote msg ++ "\x7d" := by
  apply strExt
  simp only [jsonMarshalGcpLogMessage, String.data_append, List.append_assoc]
  rfl

theorem trimSpace_infix (s : String) : (trimSpace s).data <:+: s.data := by
  have h1 : s.data.dropWhile goIsSpace <:+ s.data := List.dropWhile_suffix _
  have h2 : (trimSpace s).data <+: s.data.dropWhile goIsSpace :=
    List.rdropWhile_prefix goIsSpace (s.data.dropWhile goIsSpace)
  exact h2.isInfix.trans h1.isInfix

theorem dropWhile_append_of_all {p : Char → Bool} {l m : List Char}
    (h : l.all p = true) : (l ++ m).dropWhile p = m.dropWhile p := by
  induction l with
  | nil => rfl
  | cons c t ih =>
      rw [List.all_cons, Bool.and_eq_true] at h
      simp [List.dropWhile_cons, h.1, ih h.2]

theorem trim_prefixed (sev : String) (w : List Char)
    (hσ : sev.data.dropWhile goIsSpace = sev.data)
    (hw : w.all goIsSpace = true) :
    trimSpace (sev ++ (": " ++ (⟨w⟩ : String))) = sev ++ ":" := by
  apply strExt
  have hdata : (sev ++ (": " ++ (⟨w⟩ : String))).data = sev.data ++ (':' :: ' ' :: w) := rfl
  have hcolon : goIsSpace ':' = false := rfl
  have hspace : goIsSpace ' ' = true := rfl
  have step1 : (sev.data ++ (':' :: ' ' :: w)).dropWhile goIsSpace
      = sev.data ++ (':' :: ' ' :: w) := by
    rw [List.dropWhile_append, hσ]
    by_cases hnil : sev.data = []
    · simp [hnil, List.dropWhile_cons, hcolon]
    · have : sev.data.isEmpty = false := by
        cases h' : sev.data with
        | nil => exact absurd h' hnil
        | cons a t => rfl
      rw [this]
      simp
  have step2 : (sev.data ++ (':' :: ' ' :: w)).reverse
      = w.reverse ++ (' ' :: ':' :: sev.data.reverse) := by
    rw [List.reverse_append]
    simp
  have step3 : (w.reverse ++ (' ' :: ':' :: sev.data.reverse)).dropWhile goIsSpace
      = ':' :: sev.data.reverse := by
    rw [dropWhile_append_of_all (by simpa using hw)]
    simp [List.dropWhile_cons, hspace, hcolon]
  show (((sev ++ (": " ++ (⟨w⟩ : String))).data.dropWhile
      goIsSpace).reverse.dropWhile goIsSpace).reverse = (sev ++ ":").data
  rw [hdata, step1, step2, step3]
  simp [String.data_append]

theorem goIsSpace_eq_false_of_lower {c : Char} (h97 : 97 ≤ c.toNat)
    (h122 : c.toNat ≤ 122) : goIsSpace c = false := by
  obtain ⟨n, hn, h97', h122'⟩ : ∃ n, c = Char.ofNat n ∧ 97 ≤ n ∧ n ≤ 122 :=
    ⟨c.toNat, (Char.ofNat_toNat c).symm, h97, h122⟩
  subst hn
  interval_cases n <;> decide

theorem no_leading_space_of_upper_canonical (l : Logger)
    (h : goToUpper l.severity ∈ canonicalSeverities) :
    l.severity.data.dropWhile goIsSpace = l.severity.data := by
  cases hd : l.severity.data with
  | nil => rfl
  | cons c t =>
      rw [List.dropWhile_cons]
      suffices hc : goIsSpace c = false by rw [hc]; simp
      by_contra hsp
      rw [Bool.not_eq_false] at hsp
      have hfix : goToUpperChar c = c := by
        apply goToUpperChar_of_not
        intro hcon
        rw [goIsSpace_eq_false_of_lower hcon.1 hcon.2] at hsp
        exact Bool.false_ne_true hsp
      have hdat : (goToUpper l.severity).data = c :: t.map goToUpperChar := by
        simp [goToUpper, hd, hfix]
      simp only [canonicalSeverities, List.mem_cons, List.not_mem_nil, or_false] at h
      rcases h with h | h | h | h | h | h | h | h | h <;>
        (rw [h] at hdat; injection hdat with h1 h2; subst h1;
         exact absurd hsp (by decide))

/-! ### Claim theorems -/

/-- C1, counterexample: the claim says a constructor argument that is not an
exact-case canonical token falls back to `DEFAULT`, but `New ["warning"]`
stores `"warning"` — validation uppercases, so the lowercase full token name
passes and is stored as given. -/
theorem new_case_sensitivity_counterexample :
    (New ["warning"]).severity = "warning" ∧
    "warning" ∉ canonicalSeverities ∧ ("warning" : String) ≠ "DEFAULT" := by
  refine ⟨by decide, by decide, by decide⟩

/-- C1, amended: `New` stores its first argument verbatim (original case)
exactly when its uppercasing is one of the nine canonical tokens, and
otherwise — no argument, or an argument whose uppercasing is not canonical —
falls back to `"DEFAULT"`; in particular `New ["warn"]` falls back because
`WARN` is not itself a canonical value. -/
theorem new_constructor_severity :
    ((New []).severity = "DEFAULT")
    ∧ (∀ (s : String) (rest : List String),
        (New (s :: rest)).severity =
          if goToUpper s ∈ canonicalSeverities then s else "DEFAULT")
    ∧ (New ["warn"]).severity = "DEFAULT" :=
  ⟨rfl, new_severity_eq, by decide⟩

/-- C2, counterexample: `New ["info"]` is reachable through the public
interface yet stores `"info"`, which is not one of the nine canonical
uppercase tokens. -/
theorem severity_canonicity_counterexample :
    (reachableLogger ["info"] []).severity = "info" ∧
    "info" ∉ canonicalSeverities := by
  refine ⟨by decide, by decide⟩

/-- C2, amended: every logger reachable through the public interface (any
`New`, then any sequence of `SetSeverity` calls) has a severity whose
uppercasing is one of the nine canonical tokens, and `SetSeverity` itself
only ever stores canonical tokens; `New`, however, may store a mixed-case
variant of a canonical token. -/
theorem severity_canonicity_invariant :
    (∀ args sets : List String,
        goToUpper (reachableLogger args sets).severity ∈ canonicalSeverities)
    ∧ (∀ (l : Logger) (s : String),
        l.SetSeverity s = l ∨ (l.SetSeverity s).severity ∈ canonicalSeverities) := by
  refine ⟨reachable_canonical_upper, ?_⟩
  intro l s
  by_cases hv : isValidSeverity (goToUpper s) = true
  · right
    have : (l.SetSeverity s).severity = goToUpper s := by
      simp [Logger.SetSeverity, hv]
    rw [this]
    rw [isValidSeverity_iff, goToUpper_idem] at hv
    exact hv
  · left
    simp [Logger.SetSeverity, hv]

/-- C3: `Print` emits exactly the compact one-line JSON object with the
`severity` key first, the `message` key second, the message being the
`fmt.Sprint` text, whitespace-trimmed at both ends and JSON-escaped, with no
trailing newline; internal whitespace is preserved (the trimmed text is an
infix of the original); and `New().Print("Hello World")` writes the literal
object from the spec. -/
theorem print_emission_format :
    (∀ (l : Logger) (args : List GoVal),
        l.Print args =
          ⟨"\x7b\"severity\":" ++ jsonQuote l.severity ++ ",\"message\":" ++
              jsonQuote (trimSpace (sprint args)) ++ "\x7d", none⟩)
    ∧ (∀ s : String, (trimSpace s).data <:+: s.data)
    ∧ (New []).Print [GoVal.str "Hello World"] =
        ⟨"\x7b\"severity\":\"DEFAULT\",\"message\":\"Hello World\"\x7d", none⟩ := by
  refine ⟨?_, trimSpace_infix, by decide⟩
  intro l args
  simp only [Logger.Print, Logger.output, jsonMarshal_eq]

/-- C4: after `SetSeverity s` the severity is `uppercase s` when
`uppercase s` is one of the nine canonical tokens, and otherwise is exactly
the severity held before the call; nothing is signalled to the caller in
either case (the setter always returns a logger, never an error). -/
theorem setSeverity_semantics :
    ∀ (l : Logger) (s : String),
      (l.SetSeverity s).Severity =
        if goToUpper s ∈ canonicalSeverities then goToUpper s else l.Severity := by
  intro l s
  show (l.SetSeverity s).severity = _
  exact setSeverity_eq l s

/-- C5, counterexample: `PrefixPrintf` builds `Sprintf("%s%s"+format, ...)`
with the severity and `": "` inserted before the caller's arguments, so a
format with an explicit argument index is renumbered: `%[1]` now names the
severity operand, and `New().PrefixPrintf("%[1]s", "x")` emits the message
`"DEFAULT: DEFAULT"`, not the prefix prepended to the formatted text
`Sprintf("%[1]s", "x") = "x"`. -/
theorem prefix_printf_index_counterexample :
    (New []).PrefixPrintf "%[1]s" [GoVal.str "x"] =
        ⟨"\x7b\"severity\":\"DEFAULT\",\"message\":\"DEFAULT: DEFAULT\"\x7d", none⟩
    ∧ (New []).severity ++ ": " ++ sprintf "%[1]s" [GoVal.str "x"] = "DEFAULT: x"
    ∧ ((New []).PrefixPrintf "%[1]s" [GoVal.str "x"]).out ≠
        (New []).output ((New []).severity ++ ": " ++ sprintf "%[1]s" [GoVal.str "x"]) := by
  refine ⟨by decide, by decide, by decide⟩

/-- C5, amended: `PrefixPrint` always emits the stored severity (exactly as
stored, no re-uppercasing), a colon and a single space prepended to the
`fmt.Sprint` text; `PrefixPrintf` does the same for every format that uses
no explicit argument index (any format without a bracket — with explicit
indexes the two inserted prefix operands shift and capture the numbering);
the plain variants emit the formatted text alone;
`New().PrefixPrint("Hello World")` writes the literal object from the
spec. -/
theorem prefix_variants_prepend :
    (∀ (l : Logger) (v : List GoVal),
        l.PrefixPrint v = ⟨l.output (l.severity ++ ": " ++ sprint v), none⟩)
    ∧ (∀ (l : Logger) (f : String) (v : List GoVal),
        '[' ∉ f.data →
        l.PrefixPrintf f v = ⟨l.output (l.severity ++ ": " ++ sprintf f v), none⟩)
    ∧ (∀ (l : Logger) (v : List GoVal),
        l.Print v = ⟨l.output (sprint v), none⟩)
    ∧ (∀ (l : Logger) (f : String) (v : List GoVal),
        l.Printf f v = ⟨l.output (sprintf f v), none⟩)
    ∧ (New []).PrefixPrint [GoVal.str "Hello World"] =
        ⟨"\x7b\"severity\":\"DEFAULT\",\"message\":\"DEFAULT: Hello World\"\x7d",
          none⟩ := by
  refine ⟨?_, ?_, fun l v => rfl, fun l f v => rfl, by decide⟩
  · intro l v
    simp only [Logger.PrefixPrint, sprint_prefixArgs, String.append_assoc]
  · intro l f v hf
    simp only [Logger.PrefixPrintf, Logger.prefixArgs, sprintf_ss _ _ _ _ hf,
      String.append_assoc]

/-- C5 witness: the amended theorem's `PrefixPrintf` clause applied to the
index-free format of the spec's own example, evaluated to the literal
emission. -/
theorem prefix_variants_prepend_witness :
    ('[' ∉ ("%s %v" : String).data)
    ∧ (New []).PrefixPrintf "%s %v" [GoVal.str "Hello World", GoVal.int 12345] =
        ⟨(New []).output ((New []).severity ++ ": " ++
            sprintf "%s %v" [GoVal.str "Hello World", GoVal.int 12345]), none⟩
    ∧ (New []).PrefixPrintf "%s %v" [GoVal.str "Hello World", GoVal.int 12345] =
        ⟨"\x7b\"severity\":\"DEFAULT\",\"message\":\"DEFAULT: Hello World 12345\"\x7d",
          none⟩ := by
  have h := prefix_variants_prepend.2.1 (New []) "%s %v"
    [GoVal.str "Hello World", GoVal.int 12345] (by decide)
  exact ⟨by decide, h, by decide⟩

/-- C6: each `Fatal` variant writes exactly the bytes of the corresponding
`Print` variant and then exits with status 1 (it never returns), while the
non-`Fatal` variants return normally (no exit). -/
theorem fatal_variants_same_bytes_then_exit :
    ∀ (l : Logger) (f : String) (v : List GoVal),
      l.Fatal v = ⟨(l.Print v).out, some 1⟩
      ∧ l.Fatalf f v = ⟨(l.Printf f v).out, some 1⟩
      ∧ l.PrefixFatal v = ⟨(l.PrefixPrint v).out, some 1⟩
      ∧ l.PrefixFatalf f v = ⟨(l.PrefixPrintf f v).out, some 1⟩
      ∧ (l.Print v).exitCode = none ∧ (l.Printf f v).exitCode = none
      ∧ (l.PrefixPrint v).exitCode = none ∧ (l.PrefixPrintf f v).exitCode = none :=
  fun _ _ _ => ⟨rfl, rfl, rfl, rfl, rfl, rfl, rfl, rfl⟩

/-- C7: `isValidSeverity` returns true exactly when the uppercased candidate
is one of the nine canonical tokens (as a Lean function it is pure and
total by construction). -/
theorem isValidSeverity_canonical :
    ∀ s : String, isValidSeverity s = true ↔
      goToUpper s ∈ (["DEFAULT", "INFO", "NOTICE", "WARNING", "ERROR",
        "CRITICAL", "ALERT", "EMERGENCY", "DEBUG"] : List String) :=
  isValidSeverity_iff

/-- C8: two independently constructed loggers holding identical severities
emit byte-identical output for the same message — the emission is a function
of the stored severity and the input alone. -/
theorem emission_deterministic :
    ∀ (args₁ args₂ : List String) (v : List GoVal),
      (New args₁).severity = (New args₂).severity →
      (New args₁).Print v = (New args₂).Print v := by
  intro a₁ a₂ v h
  have hl : New a₁ = New a₂ := by
    calc New a₁ = ⟨(New a₁).severity⟩ := rfl
      _ = ⟨(New a₂).severity⟩ := by rw [h]
      _ = New a₂ := rfl
  rw [hl]

/-- C8 witness: the determinism theorem applied to two concrete,
independently constructed loggers of equal severity. -/
theorem emission_deterministic_witness :
    (New []).severity = (New ["warn"]).severity ∧
    (New []).Print [GoVal.str "m"] = (New ["warn"]).Print [GoVal.str "m"] :=
  ⟨by decide, emission_deterministic [] ["warn"] [GoVal.str "m"] (by decide)⟩

/-- C9: `New` depends only on its first argument: trailing arguments are
ignored, even when the first is invalid and a later one is a valid token
(`New ["warn", "ERROR"]` still falls back to `DEFAULT` although `"ERROR"`
alone would be accepted). -/
theorem new_ignores_extra_args :
    (∀ (s : String) (rest : List String), New (s :: rest) = New [s])
    ∧ New ["warn", "ERROR"] = New ["warn"]
    ∧ (New ["warn", "ERROR"]).severity = "DEFAULT"
    ∧ isValidSeverity "ERROR" = true :=
  ⟨fun _ _ => rfl, rfl, by decide, by decide⟩

/-- C10: trimming happens after prefixing — for every reachable logger, a
`PrefixPrint` call whose formatted text is empty or all whitespace emits a
message equal to the severity followed by a bare colon: the single space of
the `"<SEVERITY>: "` prefix is trimmed away. -/
theorem prefix_trim_bare_colon :
    ∀ (args sets : List String) (v : List GoVal),
      (sprint v).data.all goIsSpace = true →
      trimSpace (sprint ((reachableLogger args sets).prefixArgs v)) =
          (reachableLogger args sets).severity ++ ":"
      ∧ (reachableLogger args sets).PrefixPrint v =
          ⟨jsonMarshalGcpLogMessage ⟨(reachableLogger args sets).severity,
              (reachableLogger args sets).severity ++ ":"⟩, none⟩ := by
  intro args sets v hw
  set l := reachableLogger args sets with hl
  have hσ : l.severity.data.dropWhile goIsSpace = l.severity.data :=
    no_leading_space_of_upper_canonical l (by rw [hl]; exact reachable_canonical_upper args sets)
  have key : trimSpace (sprint (l.prefixArgs v)) = l.severity ++ ":" := by
    rw [sprint_prefixArgs]
    exact trim_prefixed l.severity (sprint v).data hσ hw
  refine ⟨key, ?_⟩
  show Emission.mk (l.output (sprint (l.prefixArgs v))) none = _
  rw [Logger.output, key]

/-- C10 witness: the theorem applied to the default logger and a
whitespace-only argument, evaluated to the literal emission. -/
theorem prefix_trim_bare_colon_witness :
    (sprint [GoVal.str " \n "]).data.all goIsSpace = true
    ∧ trimSpace (sprint ((reachableLogger [] []).prefixArgs [GoVal.str " \n "])) =
        "DEFAULT:"
    ∧ (reachableLogger [] []).PrefixPrint [GoVal.str " \n "] =
        ⟨"\x7b\"severity\":\"DEFAULT\",\"message\":\"DEFAULT:\"\x7d", none⟩ := by
  have h := prefix_trim_bare_colon [] [] [GoVal.str " \n "] (by decide)
  exact ⟨by decide, h.1.trans (by decide), h.2.trans (by decide)⟩

end Gcplog
